import Mathlib

/-!
Formal model of `plugin/claude-code/scripts/subagent_stop.py` (Engram
SubagentStop hook): a shallow embedding of the extraction pipeline
(transcript text reconstruction, learnings-section location, list-item
segmentation, Markdown normalization, validity filtering), the agent-name
detector, the two HTTP calls and the `main` orchestrator, together with
theorems checking the specification's statements against it.

Conventions of the embedding:
  * JSON values parsed from a transcript line are modelled by `Json`;
    objects are association lists (parsed Python dicts have unique keys).
  * Python exceptions are explicit: operations that can raise return
    `Except Unit _` or carry an error flag, and loops that a raised
    exception aborts keep the partial state accumulated so far, exactly
    as the script's `try`/`except` blocks do.
  * Python's `\s` and `\d` character classes and `str.split()` are
    modelled over their ASCII members (the transcripts the script reads
    are produced from JSON text).
  * Strings are processed as `List Char`, matching Python's
    code-point-indexed `str`.
-/

/-- A parsed JSON value (one line of a JSONL transcript). -/
inductive Json where
  | null
  | bool (b : Bool)
  | num (n : Int)
  | str (s : String)
  | arr (elems : List Json)
  | obj (fields : List (String × Json))
deriving Repr

/-- Python truthiness of a JSON-decoded value (`if x:`). -/
def jTruthy : Json → Bool
  | .null => false
  | .bool b => b
  | .num n => n != 0
  | .str s => s != ""
  | .arr xs => !xs.isEmpty
  | .obj fs => !fs.isEmpty

/-- Lookup in a parsed dict (association list). -/
def jLookup (fields : List (String × Json)) (k : String) : Option Json :=
  match fields with
  | [] => none
  | (k', v) :: rest => if k' = k then some v else jLookup rest k

/-- Does the optional value hold exactly the string `s`?  Models a Python
comparison `x.get(k) == "s"` (absent key gives `None`, never equal to a
string; non-string values are never equal to a string). -/
def isStrVal (o : Option Json) (s : String) : Bool :=
  match o with
  | some (.str t) => t = s
  | _ => false

/-- Does `pat` occur as a prefix of `hay`? -/
def startsWithChars (hay pat : List Char) : Bool :=
  match pat, hay with
  | [], _ => true
  | _ :: _, [] => false
  | p :: ps, c :: cs => p = c && startsWithChars cs ps

/-- Does `pat` occur as a contiguous substring of `hay`? -/
def containsChars (hay pat : List Char) : Bool :=
  match hay with
  | [] => pat.isEmpty
  | _ :: t => startsWithChars hay pat || containsChars t pat

/-- Python `k in xs` for a decoded JSON list: a string compares equal only
to an equal string element. -/
def listHasStr (xs : List Json) (k : String) : Bool :=
  match xs with
  | [] => false
  | .str s :: rest => s = k || listHasStr rest k
  | _ :: rest => listHasStr rest k

/-- Python `k in x` on a JSON-decoded value: key membership for a dict,
element equality for a list, substring test for a string, `TypeError`
(modelled as `.error`) for the other types. -/
def pyIn (x : Json) (k : String) : Except Unit Bool :=
  match x with
  | .obj fs => .ok (jLookup fs k).isSome
  | .arr xs => .ok (listHasStr xs k)
  | .str s => .ok (containsChars s.data k.data)
  | _ => .error ()

/-- Python `x[k]` with a string key: dict lookup (`KeyError` when absent),
`TypeError` for every non-dict. -/
def pySubscript (x : Json) (k : String) : Except Unit Json :=
  match x with
  | .obj fs =>
    match jLookup fs k with
    | some v => .ok v
    | none => .error ()
  | _ => .error ()

/-- Python `x.get(k, d)`: defaulted dict lookup; `AttributeError` when `x`
is not a dict. -/
def pyDictGetD (x : Json) (k : String) (d : Json) : Except Unit Json :=
  match x with
  | .obj fs => .ok ((jLookup fs k).getD d)
  | _ => .error ()

/-- Python `x.get(k)` (no default): `none` models Python `None`, returned
both for an absent key and (after JSON decoding) for a `null` value read
through `.get` with no default distinguishable here at the use sites only
through truthiness, which agrees; `AttributeError` when `x` is not a dict. -/
def pyDictGet (x : Json) (k : String) : Except Unit (Option Json) :=
  match x with
  | .obj fs => .ok (jLookup fs k)
  | _ => .error ()

/-- One line of a JSONL transcript as the reader sees it: blank (skipped),
not parseable as JSON (skipped), or a parsed value. -/
inductive LineContent where
  | blank
  | bad
  | parsed (entry : Json)
deriving Repr

/-- A transcript argument as the script can encounter it: empty path
string, path that does not exist, a file whose open/read raises, or the
parsed lines in file order. -/
inductive TranscriptSource where
  | noPath
  | missing
  | openFail
  | lines (ls : List LineContent)
deriving Repr

/-! ## Agent detection from the parent transcript (`detect_agent_name`) -/

/-- One item of the message-content loop (source lines 182-190): a dict
with `type == "tool_use"` and `name == "Task"` contributes its
`input.subagent_type` when truthy; `item.get("input", {})` on a non-dict
`input` value raises (`.error`). Non-dict items are skipped. -/
def taskItemType (item : Json) : Except Unit (Option Json) :=
  match item with
  | .obj fs =>
    if isStrVal (jLookup fs "type") "tool_use" && isStrVal (jLookup fs "name") "Task" then
      match (jLookup fs "input").getD (.obj []) with
      | .obj g =>
        .ok (match jLookup g "subagent_type" with
             | some v => if jTruthy v then some v else none
             | none => none)
      | _ => .error ()
    else .ok none
  | _ => .ok none

/-- The format-1 loop over a list-valued `content` (source lines 181-190):
collects matches in order; a raised exception aborts the loop but the
matches already appended are kept (second component: an exception
escaped). -/
def collectFmt1 : List Json → List Json × Bool
  | [] => ([], false)
  | item :: rest =>
    match taskItemType item with
    | .error _ => ([], true)
    | .ok none => collectFmt1 rest
    | .ok (some v) => (v :: (collectFmt1 rest).1, (collectFmt1 rest).2)

/-- Format 2 (source lines 192-196): a top-level `tool_input` dict whose
`subagent_type` is truthy contributes it; `entry["tool_input"].get(...)`
raises when `tool_input` is not a dict, and `"tool_input" in entry`
raises on numbers, booleans and null. -/
def fmt2Found (entry : Json) : List Json × Bool :=
  match pyIn entry "tool_input" with
  | .error _ => ([], true)
  | .ok false => ([], false)
  | .ok true =>
    match pySubscript entry "tool_input" with
    | .error _ => ([], true)
    | .ok ti =>
      match pyDictGet ti "subagent_type" with
      | .error _ => ([], true)
      | .ok none => ([], false)
      | .ok (some v) => if jTruthy v then ([v], false) else ([], false)

/-- The `content` selection of source lines 175-179: `entry["message"].get("content", [])`
when a `message` key is present, else `entry.get("content", [])` when a
`content` key is present, else `None`; each step may raise. -/
def contentOf (entry : Json) : Except Unit Json :=
  match pyIn entry "message" with
  | .error _ => .error ()
  | .ok true =>
    match pySubscript entry "message" with
    | .error _ => .error ()
    | .ok m => pyDictGetD m "content" (.arr [])
  | .ok false =>
    match pyIn entry "content" with
    | .error _ => .error ()
    | .ok true => pyDictGetD entry "content" (.arr [])
    | .ok false => .ok .null

/-- All `subagent_type` values one parsed record contributes, both shapes
in source order (format 1 over a list `content`, then format 2), with the
partial list kept when an exception aborts the record's processing. -/
def entryFound (entry : Json) : List Json × Bool :=
  match contentOf entry with
  | .error _ => ([], true)
  | .ok content =>
    let fmt1 :=
      match content with
      | .arr items => collectFmt1 items
      | _ => ([], false)
    if fmt1.2 then fmt1
    else (fmt1.1 ++ (fmt2Found entry).1, (fmt2Found entry).2)

/-- The detector's file loop (source lines 164-196): blank and unparseable
lines are skipped; a raised exception is caught outside the loop (line
198), so the matches collected before it are kept and later lines are
never scanned. -/
def collectFound : List LineContent → List Json → List Json
  | [], acc => acc
  | .blank :: rest, acc => collectFound rest acc
  | .bad :: rest, acc => collectFound rest acc
  | .parsed e :: rest, acc =>
    if (entryFound e).2 then acc ++ (entryFound e).1
    else collectFound rest (acc ++ (entryFound e).1)

/-- Model of `detect_agent_name` (source lines 138-207): the last collected value,
or the sentinel `"unknown"` when nothing was collected, the path is the
empty string, the path does not exist, or opening the file raises. -/
def detect_agent_name : TranscriptSource → Json
  | .noPath => .str "unknown"
  | .missing => .str "unknown"
  | .openFail => .str "unknown"
  | .lines ls =>
    match (collectFound ls []).getLast? with
    | some v => v
    | none => .str "unknown"

/-! ## Transcript text reconstruction (`_extract_text_from_jsonl`) -/

/-- Python `text.replace("\\n", "\n")`: every occurrence of the two-char
sequence backslash-`n` becomes a newline, scanning left to right. -/
def replBackslashN : List Char → List Char
  | '\\' :: 'n' :: rest => '\n' :: replBackslashN rest
  | c :: rest => c :: replBackslashN rest
  | [] => []

/-- The assistant branch's inner loop (source lines 246-250): every dict
item with `type == "text"` contributes its truthy `text` value, appended
as the raw value (the source does not check it is a string here; a
non-string surfaces only when the parts are joined). -/
def textBlocksOfAssistant : List Json → List Json
  | [] => []
  | .obj fs :: rest =>
    if isStrVal (jLookup fs "type") "text" then
      let t := (jLookup fs "text").getD (.str "")
      if jTruthy t then t :: textBlocksOfAssistant rest else textBlocksOfAssistant rest
    else textBlocksOfAssistant rest
  | _ :: rest => textBlocksOfAssistant rest

/-- The user branch's innermost loop (source lines 261-265): text blocks of
one tool-result's list content, backslash-n unescaped; `text.replace` on a
truthy non-string raises, aborting with the parts collected so far. -/
def userResultBlocks : List Json → List String × Bool
  | [] => ([], false)
  | .obj fs :: rest =>
    if isStrVal (jLookup fs "type") "text" then
      let t := (jLookup fs "text").getD (.str "")
      if jTruthy t then
        match t with
        | .str s =>
          (String.mk (replBackslashN s.data) :: (userResultBlocks rest).1,
           (userResultBlocks rest).2)
        | _ => ([], true)
      else userResultBlocks rest
    else userResultBlocks rest
  | _ :: rest => userResultBlocks rest

/-- One item of the user branch (source lines 256-265): a dict item with
`type == "tool_result"` contributes the text blocks of its content only
when that content is a list; string (or any other) content is ignored. -/
def userItemCollect (item : Json) : List String × Bool :=
  match item with
  | .obj fs =>
    if isStrVal (jLookup fs "type") "tool_result" then
      match (jLookup fs "content").getD (.str "") with
      | .arr blocks => userResultBlocks blocks
      | _ => ([], false)
    else ([], false)
  | _ => ([], false)

/-- The user branch's item loop (source lines 256-265), in file order, a
raised exception keeping the parts collected before it. -/
def userItemsCollect : List Json → List String × Bool
  | [] => ([], false)
  | item :: rest =>
    if (userItemCollect item).2 then userItemCollect item
    else ((userItemCollect item).1 ++ (userItemsCollect rest).1, (userItemsCollect rest).2)

/-- Python `entry.get("message", {}).get("content", [])` (source lines 244 and
254): raises when the `message` value is not a dict. -/
def messageContent (fs : List (String × Json)) : Except Unit Json :=
  match (jLookup fs "message").getD (.obj []) with
  | .obj m => .ok ((jLookup m "content").getD (.arr []))
  | _ => .error ()

/-- All text parts one parsed record contributes (source lines 242-271):
the assistant branch (values appended unchecked), the user branch
(strings, may raise) and the legacy top-level `tool_result` branch, in
source order; `entry.get` on a non-dict record raises at once. -/
def entryTextParts (entry : Json) : List Json × Bool :=
  match entry with
  | .obj fs =>
    let aRes : Except Unit (List Json) :=
      if isStrVal (jLookup fs "type") "assistant" then
        match messageContent fs with
        | .error _ => .error ()
        | .ok (.arr items) => .ok (textBlocksOfAssistant items)
        | .ok _ => .ok []
      else .ok []
    match aRes with
    | .error _ => ([], true)
    | .ok aParts =>
      let uRes : List String × Bool :=
        if isStrVal (jLookup fs "type") "user" then
          match messageContent fs with
          | .error _ => ([], true)
          | .ok (.arr items) => userItemsCollect items
          | .ok _ => ([], false)
        else ([], false)
      if uRes.2 then (aParts ++ uRes.1.map Json.str, true)
      else
        let lParts : List Json :=
          if isStrVal (jLookup fs "type") "tool_result" then
            match (jLookup fs "content").getD (.str "") with
            | .str s =>
              if s ≠ "" then [Json.str (String.mk (replBackslashN s.data))] else []
            | _ => []
          else []
        (aParts ++ uRes.1.map Json.str ++ lParts, false)
  | _ => ([], true)

/-- The reconstruction file loop (source lines 232-271): blank and
unparseable lines are skipped; an exception is caught at line 273, so the
parts collected before it are kept and later lines never read. -/
def collectTextParts : List LineContent → List Json
  | [] => []
  | .blank :: rest => collectTextParts rest
  | .bad :: rest => collectTextParts rest
  | .parsed e :: rest =>
    if (entryTextParts e).2 then (entryTextParts e).1
    else (entryTextParts e).1 ++ collectTextParts rest

/-- Python `"\n".join(parts)` (source line 276, outside the `try`): raises
`TypeError` when any part is not a string. -/
def joinParts : List Json → Except Unit String
  | [] => .ok ""
  | [.str s] => .ok s
  | .str s :: rest =>
    match joinParts rest with
    | .ok r => .ok (s ++ "\n" ++ r)
    | .error e => .error e
  | _ => .error ()

/-- Model of `_extract_text_from_jsonl` (source lines 214-276): a missing or
unreadable file leaves `parts` empty (exception caught at line 273) and
yields `""`; the final join is outside the `try`, so its `TypeError`
propagates to the caller. -/
def extractTextFromJsonl : TranscriptSource → Except Unit String
  | .noPath => .ok ""
  | .missing => .ok ""
  | .openFail => .ok ""
  | .lines ls => joinParts (collectTextParts ls)

/-! ## Regular-expression machinery

The script uses a fixed handful of patterns. Each is modelled by a
dedicated matcher with Python `re` semantics (leftmost match, greedy
quantifiers with backtracking, lazy `+?`, zero-width lookahead,
`MULTILINE` anchors, `DOTALL` dot). Where a greedy run is followed by a
token no member of the run's class can start (for example `\s+` before a
letter, `\d+` before `[.)]`), backtracking into the run can never
succeed, so the matcher commits to the maximal run; such places are
noted. -/

/-- Python `\s` membership (ASCII part; see the file comment). -/
def isPySpace (c : Char) : Bool :=
  c = ' ' || c = '\t' || c = '\n' || c = '\r' || c = Char.ofNat 11 || c = Char.ofNat 12

/-- Python `\d` membership (ASCII part). -/
def isPyDigit (c : Char) : Bool := '0' ≤ c && c ≤ '9'

/-- Length of the maximal prefix run of characters satisfying `p`. -/
def runLen (p : Char → Bool) : List Char → Nat
  | c :: rest => if p c then runLen p rest + 1 else 0
  | [] => 0

/-- Lower-case an ASCII letter (`re.IGNORECASE` over the patterns' ASCII
literals). -/
def lowerChar (c : Char) : Char :=
  if 'A' ≤ c && c ≤ 'Z' then Char.ofNat (c.toNat + 32) else c

/-- Case-insensitive literal prefix test; `pat` is given in lower case. -/
def ciStarts (t pat : List Char) : Bool :=
  match pat, t with
  | [], _ => true
  | _ :: _, [] => false
  | p :: ps, c :: cs => lowerChar c = p && ciStarts cs ps

/-- The `MULTILINE` `^`: position 0 or just after a newline. -/
def isLineStart (t : List Char) (p : Nat) : Bool :=
  p = 0 || (t.drop (p - 1)).head? = some '\n'

/-- Whether the `MULTILINE` `$` holds at the head of this suffix: end of text or just
before a newline. -/
def atEol : List Char → Bool
  | [] => true
  | '\n' :: _ => true
  | _ => false

/-- Greedy `\s*$`: the largest `j ≤ bound` whose position satisfies `$`
(Python consumes the longest whitespace prefix it can and backtracks to
the last end-of-line position inside it). -/
def maxEolWithin (s : List Char) : Nat → Option Nat
  | 0 => if atEol s then some 0 else none
  | j + 1 => if atEol (s.drop (j + 1)) then some (j + 1) else maxEolWithin s j

/-- The header pattern's tail `:?\s*$` at this suffix: characters consumed.
Taking an offered `:` never hurts: without it `\s*` starts on the `:` and
`$` fails there, so the greedy choice is the only candidate. -/
def headerTail (s : List Char) : Option Nat :=
  match s with
  | ':' :: rest =>
    match maxEolWithin rest (runLen isPySpace rest) with
    | some j => some (1 + j)
    | none => none
  | _ =>
    match maxEolWithin s (runLen isPySpace s) with
    | some j => some j
    | none => none

/-- The pattern piece `Learnings?` followed by `:?\s*$` once the literal `learning` is
consumed: greedy optional `s`, falling back to the tail without it. -/
def learningSuffixTail (s2 : List Char) : Option Nat :=
  match s2 with
  | c :: rest =>
    if lowerChar c = 's' then
      match headerTail rest with
      | some k => some (1 + k)
      | none => headerTail s2
    else headerTail s2
  | [] => headerTail s2

/-- The alternation `(?:Aprendizajes(?:\s+Clave)?|Key\s+Learnings?|Learnings?)`
followed by `:?\s*$` (source lines 311-314): characters consumed from this
suffix. The three branches begin with distinct letters (`a`, `k`, `l`), so
at most one branch's literal can match and Python's ordered alternation
reduces to this case split; `\s+` runs are maximal because each is
followed by a letter. -/
def headerNameTail (s : List Char) : Option Nat :=
  if ciStarts s "aprendizajes".data then
    let s1 := s.drop 12
    let withClave : Option Nat :=
      let w := runLen isPySpace s1
      if 1 ≤ w && ciStarts (s1.drop w) "clave".data then
        match headerTail (s1.drop (w + 5)) with
        | some k => some (12 + w + 5 + k)
        | none => none
      else none
    match withClave with
    | some n => some n
    | none =>
      match headerTail s1 with
      | some k => some (12 + k)
      | none => none
  else if ciStarts s "key".data then
    let s1 := s.drop 3
    let w := runLen isPySpace s1
    if 1 ≤ w && ciStarts (s1.drop w) "learning".data then
      match learningSuffixTail (s1.drop (w + 8)) with
      | some k => some (3 + w + 8 + k)
      | none => none
    else none
  else if ciStarts s "learning".data then
    match learningSuffixTail (s.drop 8) with
    | some k => some (8 + k)
    | none => none
  else none

/-- The header pattern
`^#{2,3}\s+(?:Aprendizajes(?:\s+Clave)?|Key\s+Learnings?|Learnings?):?\s*$`
tried at position `p` (which the caller has checked to be a line start):
the match's end position. `#{2,3}` succeeds only on a hash run of exactly
2 or 3 (a longer run leaves a `#` where `\s+` needs whitespace); the
`\s+` run is maximal (followed by a letter). -/
def headerMatchAt (t : List Char) (p : Nat) : Option Nat :=
  let s := t.drop p
  let h := runLen (· = '#') s
  if h = 2 || h = 3 then
    let s1 := s.drop h
    let w := runLen isPySpace s1
    if 1 ≤ w then
      match headerNameTail (s1.drop w) with
      | some k => some (p + h + w + k)
      | none => none
    else none
  else none

/-- The `finditer` scan for the header pattern: positions left to right, `^`
restricting attempts to line starts, continuing after each match's end
(non-overlapping). Fuel is the number of positions left to visit. -/
def headerEndsAux (t : List Char) : Nat → Nat → List Nat
  | 0, _ => []
  | fuel + 1, p =>
    if p > t.length then []
    else
      match (if isLineStart t p then headerMatchAt t p else none) with
      | some e => e :: headerEndsAux t fuel (max e (p + 1))
      | none => if p = t.length then [] else headerEndsAux t fuel (p + 1)

/-- All header-match end positions in `t`, in file order (source line 316:
`list(header_pattern.finditer(text))`, keeping each `match.end()`). -/
def headerMatchEnds (t : List Char) : List Nat :=
  headerEndsAux t (t.length + 1) 0

/-- One position of the section-cut search: does `\n#{1,3} ` match here?
Only `k = run` can satisfy `#{1,3}` then a space (a shorter `k` leaves a
`#` where the space must be), so a run of four or more hashes does not
match. -/
def cutHere : List Char → Bool
  | '\n' :: rest =>
    let h := runLen (· = '#') rest
    1 ≤ h && h ≤ 3 && (rest.drop h).head? = some ' '
  | _ => false

/-- Python `re.search(r"\n#{1,3} ", section_text)` (source line 326): index of the
first match. -/
def findCut : List Char → Option Nat
  | [] => none
  | c :: rest =>
    if cutHere (c :: rest) then some 0
    else
      match findCut rest with
      | some i => some (i + 1)
      | none => none

/-- The section body for the header match ending at `e` (source lines
323-328): the text after the header, truncated at the first `\n#{1,3} `
match when one exists. -/
def sectionTextAt (t : List Char) (e : Nat) : List Char :=
  let s := t.drop e
  match findCut s with
  | some i => s.take i
  | none => s

/-- Numbered-item marker `\d+[.)]`: characters consumed at this suffix.
`\d+` commits to the maximal digit run (followed by `[.)]`, never a
digit). -/
def markerLenNum (u : List Char) : Option Nat :=
  let d := runLen isPyDigit u
  if 1 ≤ d then
    match (u.drop d).head? with
    | some '.' => some (d + 1)
    | some ')' => some (d + 1)
    | _ => none
  else none

/-- Bulleted-item marker `[-*]`. -/
def markerLenBul (u : List Char) : Option Nat :=
  match u with
  | '-' :: _ => some 1
  | '*' :: _ => some 1
  | _ => none

/-- The numbered pattern's lookahead `(?=\n\s*\d+[.)]|\n\n|\Z)` at this
suffix. Inside it `\s*` and `\d+` commit to maximal runs (followed by a
digit and by `[.)]` respectively). -/
def numLookahead (u : List Char) : Bool :=
  match u with
  | [] => true
  | '\n' :: v =>
    (let w := runLen isPySpace v
     let d := runLen isPyDigit (v.drop w)
     1 ≤ d && ((v.drop (w + d)).head? = some '.' || (v.drop (w + d)).head? = some ')'))
    || v.head? = some '\n'
  | _ => false

/-- The bulleted pattern's lookahead `(?=\n\s*[-*]|\n\n|\Z)`. -/
def bulLookahead (u : List Char) : Bool :=
  match u with
  | [] => true
  | '\n' :: v =>
    (let w := runLen isPySpace v
     (v.drop w).head? = some '-' || (v.drop w).head? = some '*')
    || v.head? = some '\n'
  | _ => false

/-- Lazy `(.+?)` over a `DOTALL` dot: the least content length `L ≥ 1`
(up to the end of the suffix) where the lookahead holds after it. -/
def lazyContentAux (u : List Char) (look : List Char → Bool) : Nat → Nat → Option Nat
  | 0, _ => none
  | fuel + 1, len =>
    if len > u.length then none
    else if look (u.drop len) then some len
    else lazyContentAux u look fuel (len + 1)

/-- Least `L ≥ 1` with the lookahead holding at `u.drop L`, if any. -/
def lazyContent (u : List Char) (look : List Char → Bool) : Option Nat :=
  lazyContentAux u look (u.length + 1) 1

/-- Greedy `\s+` before the lazy content: try the whitespace run from its
maximal length down to 1, taking the first length under which the content
finds a lookahead position (a dot matches whitespace, so backtracking
here is genuine). Returns (whitespace consumed, content length). -/
def tryContentWithWs (look : List Char → Bool) (u2 : List Char) : Nat → Option (Nat × Nat)
  | 0 => none
  | k + 1 =>
    match lazyContent (u2.drop (k + 1)) look with
    | some len => some (k + 1, len)
    | none => tryContentWithWs look u2 k

/-- One list-item pattern `^\s*<marker>\s+(.+?)(?=<lookahead>)` tried at
line-start position `p`: the match's end position and the captured group.
The leading `\s*` commits to its maximal run (the marker begins with a
digit, `-` or `*`). -/
def itemMatchAt (mark : List Char → Option Nat) (look : List Char → Bool)
    (s : List Char) (p : Nat) : Option (Nat × List Char) :=
  let u0 := s.drop p
  let w0 := runLen isPySpace u0
  let u1 := u0.drop w0
  match mark u1 with
  | none => none
  | some m =>
    let u2 := u1.drop m
    match tryContentWithWs look u2 (runLen isPySpace u2) with
    | none => none
    | some (k, len) => some (p + w0 + m + k + len, (u2.drop k).take len)

/-- The `re.findall` scan for a list-item pattern: positions left to right,
attempts only at line starts, continuing at each match's end. -/
def findallAux (mark : List Char → Option Nat) (look : List Char → Bool)
    (s : List Char) : Nat → Nat → List (List Char)
  | 0, _ => []
  | fuel + 1, p =>
    if p > s.length then []
    else
      match (if isLineStart s p then itemMatchAt mark look s p else none) with
      | some (e, g) => g :: findallAux mark look s fuel (max e (p + 1))
      | none => if p = s.length then [] else findallAux mark look s fuel (p + 1)

/-- Source lines 333-337: `re.findall(r"^\s*\d+[.)]\s+(.+?)(?=\n\s*\d+[.)]|\n\n|\Z)", ...)`. -/
def findNumbered (s : List Char) : List (List Char) :=
  findallAux markerLenNum numLookahead s (s.length + 1) 0

/-- Source lines 346-350: `re.findall(r"^\s*[-*]\s+(.+?)(?=\n\s*[-*]|\n\n|\Z)", ...)`. -/
def findBullets (s : List Char) : List (List Char) :=
  findallAux markerLenBul bulLookahead s (s.length + 1) 0

/-! ## Markdown normalization (`_clean_markdown`) -/

/-- Python `re.sub(r"\*\*([^*]+)\*\*", r"\1", ...)` (source line 365): scan left
to right; at a `**`, the content is the maximal non-`*` run (a shorter
run ends on a non-`*` and cannot be followed by `*`), which must be
non-empty and followed by `**`; on failure the scan advances one
character. Fuel bounds the scan (one unit per position, never exhausted
when started at the list's length). -/
def subBoldAux : Nat → List Char → List Char
  | 0, l => l
  | _ + 1, [] => []
  | fuel + 1, c :: rest =>
    if c = '*' && rest.head? = some '*' then
      let rest2 := rest.tail
      let r := runLen (· ≠ '*') rest2
      if 1 ≤ r && (rest2.drop r).head? = some '*' && (rest2.drop (r + 1)).head? = some '*' then
        rest2.take r ++ subBoldAux fuel (rest2.drop (r + 2))
      else c :: subBoldAux fuel rest
    else c :: subBoldAux fuel rest

def subBold (l : List Char) : List Char := subBoldAux l.length l

/-- One-character-marker substitution, used for `` `([^`]+)` `` (source
line 366) and `\*([^*]+)\*` (source line 367): same scan as `subBoldAux`
with a single opening and closing marker. -/
def subMarkerAux (mk : Char) : Nat → List Char → List Char
  | 0, l => l
  | _ + 1, [] => []
  | fuel + 1, c :: rest =>
    if c = mk then
      let r := runLen (· ≠ mk) rest
      if 1 ≤ r && (rest.drop r).head? = some mk then
        rest.take r ++ subMarkerAux mk fuel (rest.drop (r + 1))
      else c :: subMarkerAux mk fuel rest
    else c :: subMarkerAux mk fuel rest

def subMarker (mk : Char) (l : List Char) : List Char := subMarkerAux mk l.length l

/-- Python `str.split()` (no argument): tokens separated by whitespace
runs, with no empty tokens. -/
def splitAux : List Char → List Char → List (List Char)
  | [], acc => if acc.isEmpty then [] else [acc.reverse]
  | c :: rest, acc =>
    if isPySpace c then
      if acc.isEmpty then splitAux rest [] else acc.reverse :: splitAux rest []
    else splitAux rest (c :: acc)

def pySplit (l : List Char) : List (List Char) := splitAux l []

/-- Python `" ".join(tokens)`. -/
def joinSpace : List (List Char) → List Char
  | [] => []
  | [t] => t
  | t :: ts => t ++ ' ' :: joinSpace ts

/-- Model of `_clean_markdown` (source lines 363-368): bold, then inline code, then
italic substitution, then whitespace collapse via `" ".join(text.split())`. -/
def cleanMarkdown (l : List Char) : List Char :=
  joinSpace (pySplit (subMarker '*' (subMarker '`' (subBold l))))

def _clean_markdown (s : String) : String := String.mk (cleanMarkdown s.data)

/-! ## Validity filter, section choice and `extract_learnings` -/

/-- Source line 56. -/
def MIN_LEARNING_LENGTH : Nat := 20

/-- Source lines 341 and 353: `len(cleaned) >= MIN_LEARNING_LENGTH and not
cleaned.startswith("[")`. -/
def validLearning (cleaned : List Char) : Bool :=
  MIN_LEARNING_LENGTH ≤ cleaned.length && cleaned.head? ≠ some '['

/-- The per-item clean-and-filter loop (source lines 339-342 and 351-354). -/
def validCleaned : List (List Char) → List (List Char)
  | [] => []
  | item :: rest =>
    let cleaned := cleanMarkdown item
    if validLearning cleaned then cleaned :: validCleaned rest else validCleaned rest

/-- One section's parse (source lines 330-354): numbered items first (the
filter runs only when the raw numbered list is non-empty), bulleted items
when that produced no learnings. -/
def parseSection (s : List Char) : List (List Char) :=
  let numbered := findNumbered s
  let learnings := if numbered.isEmpty then [] else validCleaned numbered
  if learnings.isEmpty then validCleaned (findBullets s) else learnings

/-- The candidate loop of source lines 322-360: `es` is the list of header
ends already reversed (most recent first); the first candidate whose parse
is non-empty is returned. -/
def extractFromMatches (t : List Char) : List Nat → List (List Char)
  | [] => []
  | e :: rest =>
    let learnings := parseSection (sectionTextAt t e)
    if learnings.isEmpty then extractFromMatches t rest else learnings

/-- The text-level extraction pipeline of `extract_learnings` (source
lines 311-360), from reconstructed transcript text to learning items. -/
def extract_learnings_text (t : List Char) : List (List Char) :=
  extractFromMatches t (headerMatchEnds t).reverse

/-- Python `not text.strip()` (source line 306). -/
def pyBlank (s : String) : Bool := s.data.all isPySpace

/-- Model of `extract_learnings` (source lines 279-360). An empty path or a missing
file yields `[]`; the reconstruction's join `TypeError` (non-string
assistant part) propagates, since `extract_learnings` has no handler. -/
def extract_learnings : TranscriptSource → Except Unit (List (List Char))
  | .noPath => .ok []
  | .missing => .ok []
  | .openFail => .ok []
  | .lines ls =>
    match extractTextFromJsonl (.lines ls) with
    | .error e => .error e
    | .ok text =>
      if pyBlank text then .ok []
      else .ok (extract_learnings_text text.data)

/-! ## Engram HTTP calls -/

/-- An HTTP response as the script observes it: the status code and the
outcome of `resp.json()` (`none` when the body is not valid JSON, which
raises). -/
structure HttpResponse where
  status : Nat
  body : Option Json

/-- Semantics of `requests.Response.ok`: true exactly when the status code is below 400
(so 3xx responses count as ok). -/
def respOk (r : HttpResponse) : Bool := r.status < 400

/-- Model of `check_engram_health` (source lines 86-100): `resp.ok`, with any
raised request exception (timeout, connection error) giving `False`. -/
def check_engram_health (res : Except Unit HttpResponse) : Bool :=
  match res with
  | .error _ => false
  | .ok r => respOk r

/-- Model of `save_to_engram` (source lines 103-131): on an ok response, return
`data.get("id")` — `none` models Python `None`, produced by a request
exception, a non-ok status, an unparseable body, a non-dict body
(`data.get` raises, caught), an absent `id` key, or a JSON `null` id. -/
def save_to_engram (res : Except Unit HttpResponse) : Option Json :=
  match res with
  | .error _ => none
  | .ok r =>
    if respOk r then
      match r.body with
      | some (.obj fields) =>
        match jLookup fields "id" with
        | some .null => none
        | some v => some v
        | none => none
      | _ => none
    else none

/-! ## The `main` orchestrator -/

/-- Outcome of running a piece of the script's body: a value, an
`Exception` (caught by `except Exception`), or `SystemExit(code)` raised
by `sys.exit(code)` (which `except Exception` does not catch). -/
inductive PyResult (α : Type) where
  | ok (a : α)
  | exn
  | exit (code : Nat)

def PyResult.bind {α β : Type} : PyResult α → (α → PyResult β) → PyResult β
  | .ok a, f => f a
  | .exn, _ => .exn
  | .exit c, _ => .exit c

/-- Lift a fallible operation into the body (its exception escapes to the
top-level handler). -/
def liftExc {α : Type} : Except Unit α → PyResult α
  | .ok a => .ok a
  | .error _ => .exn

/-- Python `PurePath(s).name` for the plain path strings the hook receives: the
last non-empty `/`-separated segment (pathlib's special `.` components are
not modelled; no claim depends on this value). -/
def pathNameAux : List Char → List Char → List Char → List Char
  | [], cur, lastSeg => if cur.isEmpty then lastSeg else cur.reverse
  | '/' :: rest, cur, lastSeg =>
    if cur.isEmpty then pathNameAux rest [] lastSeg else pathNameAux rest [] cur.reverse
  | c :: rest, cur, lastSeg => pathNameAux rest (c :: cur) lastSeg

def pathName (s : String) : String := String.mk (pathNameAux s.data [] [])

/-- The environment one invocation of `main` runs against: whether setting
up logging raises (source line 377, before the `try`), what `sys.stdin.read`
plus `json.loads` produce (`.ok none`: blank stdin or a JSON decode error,
both giving `data = {}`), the two HTTP interactions, the file system's view
of the two transcript paths, and an optional unexpected exception injected
before step `fault` of the body. -/
structure MainEnv where
  loggingFault : Bool
  stdinRead : Except Unit (Option Json)
  healthResp : Except Unit HttpResponse
  agentTranscriptExists : Bool
  parentTranscript : TranscriptSource
  agentTranscript : TranscriptSource
  saveResp : Nat → Except Unit HttpResponse
  fault : Option Nat

/-- An unexpected exception injected at step `k` of the body. -/
def stepFault (env : MainEnv) (k : Nat) : PyResult Unit :=
  if env.fault = some k then .exn else .ok ()

/-- Line 392, `project = Path(cwd).name if cwd else "unknown"`:
`Path` of a truthy non-string raises. -/
def projectOf (cwd : Json) : PyResult String :=
  if jTruthy cwd then
    match cwd with
    | .str s => .ok (pathName s)
    | _ => .exn
  else .ok "unknown"

/-- Step 2's condition value (source line 402): `agent_transcript` truthy
and the path exists; `Path` of a truthy non-string raises. -/
def agentAvailable (env : MainEnv) (v : Json) : PyResult Bool :=
  if jTruthy v then
    match v with
    | .str _ => .ok env.agentTranscriptExists
    | _ => .exn
  else .ok false

/-- Step 3 (source line 407): `detect_agent_name(parent_transcript)`; a
falsy path takes the detector's empty-path branch, a truthy non-string
raises inside the detector's `Path` call (line 156, outside its `try`). -/
def parentDetect (env : MainEnv) (v : Json) : PyResult Json :=
  match v with
  | .str s => .ok (detect_agent_name (if s = "" then .noPath else env.parentTranscript))
  | w => if jTruthy w then .exn else .ok (detect_agent_name .noPath)

/-- The submission loop (source lines 417-440): one POST per learning, a
failed one only affecting the count. -/
def saveCount (env : MainEnv) : List (List Char) → Nat → Nat
  | [], _ => 0
  | _ :: rest, i =>
    (if (save_to_engram (env.saveResp i)).isSome then 1 else 0) + saveCount env rest (i + 1)

/-- The body of `main`'s `try` block (source lines 379-445), step by step. -/
def runMainBody (env : MainEnv) : PyResult Unit :=
  PyResult.bind (stepFault env 0) fun _ =>
  PyResult.bind
    (match env.stdinRead with
     | .error _ => PyResult.exn
     | .ok none => PyResult.ok (Json.obj [])
     | .ok (some j) => PyResult.ok j) fun data =>
  PyResult.bind (liftExc (pyDictGetD data "session_id" (.str ""))) fun _sessionId =>
  PyResult.bind (liftExc (pyDictGetD data "agent_transcript_path" (.str ""))) fun agentPath =>
  PyResult.bind (liftExc (pyDictGetD data "transcript_path" (.str ""))) fun parentPath =>
  PyResult.bind (liftExc (pyDictGetD data "cwd" (.str ""))) fun cwd =>
  PyResult.bind (projectOf cwd) fun _project =>
  PyResult.bind (stepFault env 1) fun _ =>
  if !check_engram_health env.healthResp then
    PyResult.exit 0
  else
  PyResult.bind (stepFault env 2) fun _ =>
  PyResult.bind (agentAvailable env agentPath) fun avail =>
  if !avail then
    PyResult.exit 0
  else
  PyResult.bind (stepFault env 3) fun _ =>
  PyResult.bind (parentDetect env parentPath) fun _agentName =>
  PyResult.bind (stepFault env 4) fun _ =>
  PyResult.bind
    (match extract_learnings env.agentTranscript with
     | .error _ => PyResult.exn
     | .ok ls => PyResult.ok ls) fun learnings =>
  if learnings.isEmpty then
    PyResult.exit 0
  else
  PyResult.bind (stepFault env 5) fun _ =>
  let _saved := saveCount env learnings 0
  PyResult.ok ()

/-- The process exit status of one invocation of `main` (source lines
375-450): an exception from `setup_logging` (line 377) escapes `main` and
the interpreter exits with status 1; otherwise `SystemExit(c)` raised
inside the `try` passes the `except Exception` handler and gives `c`; a
caught exception falls through to the final `sys.exit(0)` (line 450), as
does normal completion. -/
def mainExitCode (env : MainEnv) : Nat :=
  if env.loggingFault then 1
  else
    match runMainBody env with
    | .exit c => c
    | .exn => 0
    | .ok _ => 0

/-! ## Concrete inputs used by the theorems -/

/-- A transcript text with one recognized section of three numbered items,
the second invalid (shorter than the threshold and bracket-led). -/
def exThreeItems : String :=
  "## Key Learnings:\n1. Always validate input boundaries.\n2. [placeholder item]\n3. Cache misses should log at debug level.\n"

/-- A transcript text whose level-2 section is followed by a level-3
header line and further content. -/
def exLevelThree : String :=
  "## Key Learnings:\n1. Always validate input boundaries early.\n### Sub\n2. Cache misses should log at debug level.\n"

/-- A parseable record whose `message` value is not a dict (its processing
raises at `entry["message"].get(...)`, source line 177). -/
def exBadMessage : Json := .obj [("message", .num 3)]

/-- A parseable format-2 record naming a subagent. -/
def exReviewerTask : Json := .obj [("tool_input", .obj [("subagent_type", .str "reviewer")])]

/-- All `subagent_type` values a line contributes when nothing aborts. -/
def lineFound : LineContent → List Json
  | .parsed e => (entryFound e).1
  | _ => []

/-- Does processing this line raise? -/
def lineAborts : LineContent → Bool
  | .parsed e => (entryFound e).2
  | _ => false

/-! ## Definitions stated from the specification's words, for comparison -/

/-- Stated from the claim's words (C5): a cut only at a header line of
level at most `lvl` (the triggering header's level). -/
def cutHereLeq (lvl : Nat) : List Char → Bool
  | '\n' :: rest =>
    let h := runLen (· = '#') rest
    1 ≤ h && h ≤ lvl && (rest.drop h).head? = some ' '
  | _ => false

/-- First cut position under the claim's level-bounded rule. -/
def findCutLeq : Nat → List Char → Option Nat
  | _, [] => none
  | lvl, c :: rest =>
    if cutHereLeq lvl (c :: rest) then some 0
    else
      match findCutLeq lvl rest with
      | some i => some (i + 1)
      | none => none

/-- The claim's section body (C5): text after the header up to the next
header of level ≤ `lvl`, or end of text. -/
def sectionTextSpecLeq (t : List Char) (e lvl : Nat) : List Char :=
  let s := t.drop e
  match findCutLeq lvl s with
  | some i => s.take i
  | none => s

/-- Stated from the claim's words (C7): the text fragments one block list
of a list-typed tool-result content contributes — each `text`-typed
block's string, backslash-n unescaped. -/
def claimBlockTexts : List Json → List String
  | [] => []
  | b :: rest =>
    (match b with
     | .obj g =>
       if isStrVal (jLookup g "type") "text" then
         match jLookup g "text" with
         | some (.str s) => if s ≠ "" then [String.mk (replBackslashN s.data)] else []
         | _ => []
       else []
     | _ => []) ++ claimBlockTexts rest

/-- Stated from the claim's words (C7): a tool-result item contributes its
list content's text blocks, and nothing when its content is a plain string
(or anything else). -/
def claimToolResultTexts (item : Json) : List String :=
  match item with
  | .obj fs =>
    if isStrVal (jLookup fs "type") "tool_result" then
      match (jLookup fs "content").getD (.str "") with
      | .arr blocks => claimBlockTexts blocks
      | _ => []
    else []
  | _ => []

/-- Newline join of string fragments in order (C7's "newline-joined"). -/
def joinNewline : List String → String
  | [] => ""
  | [s] => s
  | s :: rest => s ++ "\n" ++ joinNewline rest

/-- Whether `x` never carries a nonzero `SystemExit` code. -/
def PyResult.zeroExit {α : Type} : PyResult α → Prop
  | .exit c => c = 0
  | _ => True

/-- An environment in which setting up logging raises (for example
`LOG_DIR.mkdir` hitting an unwritable cache directory). -/
def envLoggingFails : MainEnv :=
  { loggingFault := true, stdinRead := .ok none, healthResp := .error (),
    agentTranscriptExists := false, parentTranscript := .noPath,
    agentTranscript := .noPath, saveResp := fun _ => .error (), fault := none }

set_option maxRecDepth 10000

/-! # Theorems -/

/-! ## Validity of returned items (helpers for C3) -/

theorem validCleaned_sound (l : List (List Char)) :
    ∀ x ∈ validCleaned l, MIN_LEARNING_LENGTH ≤ x.length ∧ x.head? ≠ some '[' := by
  induction l with
  | nil => simp [validCleaned]
  | cons a rest ih =>
    intro x hx
    simp only [validCleaned] at hx
    by_cases hv : validLearning (cleanMarkdown a) = true
    · rw [if_pos hv] at hx
      rcases List.mem_cons.mp hx with rfl | hx
      · simpa [validLearning] using hv
      · exact ih x hx
    · rw [if_neg hv] at hx
      exact ih x hx

theorem parseSection_eq (s : List Char) :
    parseSection s =
      if (if (findNumbered s).isEmpty then [] else validCleaned (findNumbered s)).isEmpty
      then validCleaned (findBullets s)
      else if (findNumbered s).isEmpty then [] else validCleaned (findNumbered s) := rfl

theorem parseSection_mem_cases (s x : List Char) (hx : x ∈ parseSection s) :
    x ∈ validCleaned (findNumbered s) ∨ x ∈ validCleaned (findBullets s) := by
  rw [parseSection_eq] at hx
  by_cases h1 : (findNumbered s).isEmpty = true
  · rw [if_pos h1, if_pos (show ([] : List (List Char)).isEmpty = true from rfl)] at hx
    right; exact hx
  · rw [if_neg h1] at hx
    by_cases h2 : (validCleaned (findNumbered s)).isEmpty = true
    · rw [if_pos h2] at hx
      right; exact hx
    · rw [if_neg h2] at hx
      left; exact hx

theorem parseSection_sound (s : List Char) :
    ∀ x ∈ parseSection s, MIN_LEARNING_LENGTH ≤ x.length ∧ x.head? ≠ some '[' := by
  intro x hx
  rcases parseSection_mem_cases s x hx with h | h
  · exact validCleaned_sound _ x h
  · exact validCleaned_sound _ x h

theorem extractFromMatches_sound (t : List Char) (es : List Nat) :
    ∀ x ∈ extractFromMatches t es, MIN_LEARNING_LENGTH ≤ x.length ∧ x.head? ≠ some '[' := by
  induction es with
  | nil => simp [extractFromMatches]
  | cons e rest ih =>
    intro x hx
    simp only [extractFromMatches] at hx
    split at hx
    · exact ih x hx
    · exact parseSection_sound _ x hx

theorem extract_learnings_sound (src : TranscriptSource) (out : List (List Char))
    (h : extract_learnings src = .ok out) :
    ∀ x ∈ out, MIN_LEARNING_LENGTH ≤ x.length ∧ x.head? ≠ some '[' := by
  cases src with
  | noPath =>
    injection h with h
    subst h; simp
  | missing =>
    injection h with h
    subst h; simp
  | openFail =>
    injection h with h
    subst h; simp
  | lines ls =>
    simp only [extract_learnings] at h
    split at h
    · exact absurd h (by simp)
    · split at h
      · injection h with h
        subst h; simp
      · injection h with h
        subst h
        exact extractFromMatches_sound _ _

/-- C3: every string `extract_learnings` returns is a cleaned item of
length at least `MIN_LEARNING_LENGTH` (20) that does not begin with `[`;
and on a section of three numbered items whose second is invalid (too
short and bracket-led), exactly the other two come back, in order. -/
theorem extract_learnings_items_valid :
    (∀ src out, extract_learnings src = .ok out →
       ∀ x ∈ out, MIN_LEARNING_LENGTH ≤ x.length ∧ x.head? ≠ some '[') ∧
    extract_learnings_text exThreeItems.data =
      ["Always validate input boundaries.".data,
       "Cache misses should log at debug level.".data] := by
  exact ⟨fun src out h => extract_learnings_sound src out h, by decide⟩

/-! ## Numbered items take priority (C4) -/

/-- C4: the section parse returns the validated numbered items whenever at
least one numbered item validates, and falls back to the validated
bulleted items exactly when zero numbered items validate — also when
numbered markers are present but every numbered item fails the filter. -/
theorem numbered_priority_over_bullets (s : List Char) :
    (validCleaned (findNumbered s) ≠ [] →
       parseSection s = validCleaned (findNumbered s)) ∧
    (validCleaned (findNumbered s) = [] →
       parseSection s = validCleaned (findBullets s)) := by
  simp only [parseSection]
  by_cases hn : (findNumbered s).isEmpty
  · have hnil : findNumbered s = [] := by simpa using hn
    constructor
    · intro hv
      rw [hnil] at hv
      simp [validCleaned] at hv
    · intro _
      rw [if_pos hn]
      simp
  · rw [if_neg hn]
    constructor
    · intro hv
      rw [if_neg (by simpa using hv)]
    · intro hv
      rw [if_pos (by simpa using hv)]

/-! ## Section bodies are cut at any 1-3 hash header (C5) -/

theorem findCut_first (s : List Char) :
    (∀ i, findCut s = some i →
       cutHere (s.drop i) = true ∧ ∀ j < i, cutHere (s.drop j) = false) ∧
    (findCut s = none → ∀ j, cutHere (s.drop j) = false) := by
  induction s with
  | nil =>
    refine ⟨fun i h => by simp [findCut] at h, fun _ j => ?_⟩
    simp [cutHere]
  | cons c rest ih =>
    by_cases hc : cutHere (c :: rest) = true
    · refine ⟨fun i h => ?_, fun h => ?_⟩
      · simp only [findCut, if_pos hc] at h
        cases h
        exact ⟨hc, fun j hj => absurd hj (Nat.not_lt_zero j)⟩
      · simp [findCut, hc] at h
    · refine ⟨fun i h => ?_, fun h => ?_⟩
      · simp only [findCut, if_neg hc] at h
        cases hrec : findCut rest with
        | some i' =>
          rw [hrec] at h
          cases h
          refine ⟨(ih.1 i' hrec).1, fun j hj => ?_⟩
          cases j with
          | zero => simpa using (Bool.not_eq_true _).mp hc
          | succ k => exact (ih.1 i' hrec).2 k (Nat.lt_of_succ_lt_succ hj)
        | none => rw [hrec] at h; cases h
      · simp only [findCut, if_neg hc] at h
        cases hrec : findCut rest with
        | some i' => rw [hrec] at h; cases h
        | none =>
          intro j
          cases j with
          | zero => simpa using (Bool.not_eq_true _).mp hc
          | succ k => exact ih.2 hrec k

/-- C5 counterexample: in `exLevelThree` the one recognized header (level
2) ends at 17; the code's section body stops before the `### Sub` line,
while the claim's level-bounded body (`sectionTextSpecLeq` at level 2)
runs on past it — so a level-3 header line does terminate a level-2
section. -/
theorem section_level3_cut_counterexample :
    headerMatchEnds exLevelThree.data = [17] ∧
    sectionTextAt exLevelThree.data 17 =
      "\n1. Always validate input boundaries early.".data ∧
    sectionTextSpecLeq exLevelThree.data 17 2 ≠ sectionTextAt exLevelThree.data 17 := by
  exact ⟨by decide, by decide, by decide⟩

/-- C5 amended: a section body is the text after the recognized header up
to (excluding) the first `\n#{1,3} ` match — the next line beginning with
one to three hashes and a space, of any level, regardless of the
triggering header's level — or the end of the text when none exists. -/
theorem section_cut_any_level (t : List Char) (e : Nat) :
    (∃ i, findCut (t.drop e) = some i ∧
       sectionTextAt t e = (t.drop e).take i ∧
       cutHere ((t.drop e).drop i) = true ∧
       ∀ j < i, cutHere ((t.drop e).drop j) = false) ∨
    (findCut (t.drop e) = none ∧ sectionTextAt t e = t.drop e ∧
       ∀ j, cutHere ((t.drop e).drop j) = false) := by
  cases h : findCut (t.drop e) with
  | some i =>
    left
    exact ⟨i, rfl, by simp [sectionTextAt, h], ((findCut_first _).1 i h).1,
           ((findCut_first _).1 i h).2⟩
  | none =>
    right
    exact ⟨rfl, by simp [sectionTextAt, h], (findCut_first _).2 h⟩

/-! ## HTTP contract (C8) -/

/-- C8 counterexample: a 302 response is reported healthy by
`check_engram_health` although it is not a 2xx status, and a 302
response with an `id` body makes `save_to_engram` return the id —
`requests.Response.ok` is "status below 400", not "2xx". -/
theorem health_not_2xx_counterexample :
    check_engram_health (.ok ⟨302, none⟩) = true ∧
    ¬(200 ≤ 302 ∧ 302 < 300) ∧
    save_to_engram (.ok ⟨302, some (.obj [("id", .str "obs-1")])⟩) = some (.str "obs-1") := by
  exact ⟨rfl, by decide, rfl⟩

/-- C8 amended: the health check reports available exactly when the GET
produced a response of status below 400 (2xx or 3xx; an exception or a
4xx/5xx status means unavailable), and a submission yields an id exactly
when the POST produced a status below 400 with a JSON-object body holding
a non-null `id` field. -/
theorem engram_http_below_400 (res : Except Unit HttpResponse) :
    (check_engram_health res = true ↔ ∃ r, res = .ok r ∧ r.status < 400) ∧
    ((save_to_engram res).isSome = true ↔
       ∃ r fields v, res = .ok r ∧ r.status < 400 ∧ r.body = some (.obj fields) ∧
         jLookup fields "id" = some v ∧ v ≠ .null) := by
  cases res with
  | error e =>
    constructor
    · simp [check_engram_health]
    · simp [save_to_engram]
  | ok r =>
    obtain ⟨st, body⟩ := r
    constructor
    · constructor
      · intro h
        refine ⟨⟨st, body⟩, rfl, ?_⟩
        simpa [check_engram_health, respOk] using h
      · rintro ⟨r1, hr1, hs⟩
        cases hr1
        simpa [check_engram_health, respOk] using hs
    · constructor
      · intro h
        by_cases hok : st < 400
        · rcases body with _ | b
          · simp [save_to_engram, respOk] at h
          · rcases b with _ | _ | _ | _ | _ | fields
            · simp [save_to_engram, respOk] at h
            · simp [save_to_engram, respOk] at h
            · simp [save_to_engram, respOk] at h
            · simp [save_to_engram, respOk] at h
            · simp [save_to_engram, respOk] at h
            · simp only [save_to_engram, respOk] at h
              rw [if_pos (by simpa using hok)] at h
              rcases hid : jLookup fields "id" with _ | v
              · rw [hid] at h; simp at h
              · rw [hid] at h
                rcases v with _ | _ | _ | _ | _ | _
                · simp at h
                · exact ⟨⟨st, _⟩, fields, _, rfl, hok, rfl, hid, by simp⟩
                · exact ⟨⟨st, _⟩, fields, _, rfl, hok, rfl, hid, by simp⟩
                · exact ⟨⟨st, _⟩, fields, _, rfl, hok, rfl, hid, by simp⟩
                · exact ⟨⟨st, _⟩, fields, _, rfl, hok, rfl, hid, by simp⟩
                · exact ⟨⟨st, _⟩, fields, _, rfl, hok, rfl, hid, by simp⟩
        · exfalso
          simp only [save_to_engram, respOk] at h
          rw [if_neg (by simpa using hok)] at h
          simp at h
      · rintro ⟨r1, fields, v, hr1, hs, hb, hid, hv⟩
        cases hr1
        simp only at hb hs
        subst hb
        simp only [save_to_engram, respOk]
        rw [if_pos (by simpa using hs), hid]
        cases v
        · exact absurd rfl hv
        all_goals simp

/-! ## Most recent valid section wins (C2) -/

theorem extractFromMatches_cons (t : List Char) (e : Nat) (rest : List Nat) :
    extractFromMatches t (e :: rest) =
      if (parseSection (sectionTextAt t e)).isEmpty then extractFromMatches t rest
      else parseSection (sectionTextAt t e) := rfl

theorem extractFromMatches_characterization (t : List Char) (es : List Nat) :
    (extractFromMatches t es = [] ∧ ∀ e ∈ es, parseSection (sectionTextAt t e) = [])
    ∨ ∃ i, ∃ h : i < es.length,
        extractFromMatches t es = parseSection (sectionTextAt t (es.get ⟨i, h⟩)) ∧
        parseSection (sectionTextAt t (es.get ⟨i, h⟩)) ≠ [] ∧
        ∀ j (hj : j < i), parseSection (sectionTextAt t (es.get ⟨j, hj.trans h⟩)) = [] := by
  induction es with
  | nil => left; exact ⟨rfl, by simp⟩
  | cons e rest ih =>
    by_cases hp : (parseSection (sectionTextAt t e)).isEmpty = true
    · have hpe : parseSection (sectionTextAt t e) = [] := by simpa using hp
      have hstep : extractFromMatches t (e :: rest) = extractFromMatches t rest := by
        rw [extractFromMatches_cons, if_pos hp]
      rcases ih with ⟨h1, h2⟩ | ⟨i, hi, hval, hne, hprev⟩
      · left
        refine ⟨hstep ▸ h1, ?_⟩
        intro x hx
        rcases List.mem_cons.mp hx with rfl | hx
        · exact hpe
        · exact h2 x hx
      · right
        refine ⟨i + 1, Nat.succ_lt_succ hi, ?_, hne, ?_⟩
        · rw [hstep]; exact hval
        · intro j hj
          cases j with
          | zero => exact hpe
          | succ k => exact hprev k (Nat.lt_of_succ_lt_succ hj)
    · right
      have hne : parseSection (sectionTextAt t e) ≠ [] := by simpa using hp
      refine ⟨0, Nat.succ_pos _, ?_, hne, fun j hj => absurd hj (Nat.not_lt_zero j)⟩
      rw [extractFromMatches_cons, if_neg hp]
      rfl

/-- C2: scanning the reversed match list (index 0 is the most recent
header), the extraction result is either empty with every candidate
section parsing to nothing, or exactly the parse of the first candidate
(from the most recent backward) whose section yields at least one valid
item, every more recent candidate yielding none — so a most-recent
section with no valid items falls back to the next older one, and
sections older than the chosen one never contribute. -/
theorem extract_most_recent_valid_section (t : List Char) :
    (extract_learnings_text t = [] ∧
       ∀ e ∈ headerMatchEnds t, parseSection (sectionTextAt t e) = [])
    ∨ ∃ i, ∃ h : i < (headerMatchEnds t).reverse.length,
        extract_learnings_text t =
          parseSection (sectionTextAt t ((headerMatchEnds t).reverse.get ⟨i, h⟩)) ∧
        parseSection (sectionTextAt t ((headerMatchEnds t).reverse.get ⟨i, h⟩)) ≠ [] ∧
        ∀ j (hj : j < i),
          parseSection (sectionTextAt t ((headerMatchEnds t).reverse.get ⟨j, hj.trans h⟩)) = [] := by
  rcases extractFromMatches_characterization t (headerMatchEnds t).reverse with ⟨h1, h2⟩ | h
  · left
    exact ⟨h1, fun e he => h2 e (List.mem_reverse.mpr he)⟩
  · right
    exact h

/-! ## Agent detection: abort on a malformed record (C6) -/

/-- C6 counterexample: the first line `{"message": 3}` parses as JSON but
its processing raises (`entry["message"].get(...)` on an int), the
exception is caught outside the loop, and the second line — which
carries `tool_input.subagent_type = "reviewer"` through shape (b) — is
never scanned: the detector returns `"unknown"`, not `"reviewer"` as the
claim's every-parseable-line scan would. -/
theorem detect_scan_abort_counterexample :
    detect_agent_name (.lines [.parsed exBadMessage, .parsed exReviewerTask]) = .str "unknown" ∧
    lineFound (.parsed exReviewerTask) = [.str "reviewer"] ∧
    Json.str "unknown" ≠ Json.str "reviewer" := by
  refine ⟨rfl, rfl, fun h => ?_⟩
  injection h with h
  exact absurd h (by decide)

theorem collectFound_no_abort (ls : List LineContent)
    (h : ∀ l ∈ ls, lineAborts l = false) :
    ∀ acc, collectFound ls acc = acc ++ (ls.map lineFound).flatten := by
  induction ls with
  | nil => intro acc; simp [collectFound]
  | cons l rest ih =>
    intro acc
    have hrest : ∀ l' ∈ rest, lineAborts l' = false :=
      fun l' hl' => h l' (List.mem_cons_of_mem l hl')
    cases l with
    | blank =>
      simp only [collectFound]
      rw [ih hrest acc]
      simp [lineFound]
    | bad =>
      simp only [collectFound]
      rw [ih hrest acc]
      simp [lineFound]
    | parsed e =>
      have he : (entryFound e).2 = false := h _ (List.mem_cons_self _ rest)
      simp only [collectFound]
      rw [if_neg (by simp [he]), ih hrest]
      simp [lineFound, List.append_assoc]

/-- C6 amended: when no parseable line's processing raises, the detector
collects every `subagent_type` found through either record shape, in file
order across all lines, and returns the last element (or `"unknown"` for
an empty collection, an empty path, a missing file or an unreadable
file); when a line's processing raises, scanning stops there and only the
values collected before it are considered. -/
theorem detect_last_subagent_collected :
    (∀ ls : List LineContent, (∀ l ∈ ls, lineAborts l = false) →
       detect_agent_name (.lines ls) =
         (((ls.map lineFound).flatten).getLast?).getD (.str "unknown")) ∧
    detect_agent_name .noPath = .str "unknown" ∧
    detect_agent_name .missing = .str "unknown" ∧
    detect_agent_name .openFail = .str "unknown" := by
  refine ⟨?_, rfl, rfl, rfl⟩
  intro ls h
  simp only [detect_agent_name]
  rw [collectFound_no_abort ls h []]
  simp only [List.nil_append]
  cases hgl : ((ls.map lineFound).flatten).getLast? <;> simp [hgl]

/-! ## Only truthy values are collected (helpers for C10) -/

theorem taskItemType_truthy (item v : Json)
    (h : taskItemType item = .ok (some v)) : jTruthy v = true := by
  cases item with
  | obj fs =>
    simp only [taskItemType] at h
    split at h
    · split at h
      · injection h with h
        split at h
        · split at h
          · injection h with h
            subst h
            assumption
          · cases h
        · cases h
      · cases h
    · injection h with h
      cases h
  | null => injection h with h; cases h
  | bool b => injection h with h; cases h
  | num n => injection h with h; cases h
  | str s => injection h with h; cases h
  | arr xs => injection h with h; cases h

theorem collectFmt1_truthy (items : List Json) :
    ∀ v ∈ (collectFmt1 items).1, jTruthy v = true := by
  induction items with
  | nil => simp [collectFmt1]
  | cons item rest ih =>
    intro v hv
    simp only [collectFmt1] at hv
    split at hv
    · simp at hv
    · exact ih v hv
    · rename_i w heq
      rcases List.mem_cons.mp hv with rfl | hv
      · exact taskItemType_truthy item v heq
      · exact ih v hv

theorem fmt2Found_truthy (e : Json) :
    ∀ v ∈ (fmt2Found e).1, jTruthy v = true := by
  intro v hv
  simp only [fmt2Found] at hv
  split at hv
  · simp at hv
  · simp at hv
  · split at hv
    · simp at hv
    · split at hv
      · simp at hv
      · simp at hv
      · rename_i w htr
        split at hv
        · rename_i hw
          rcases List.mem_singleton.mp hv with rfl
          exact hw
        · simp at hv

theorem entryFound_truthy (e : Json) :
    ∀ v ∈ (entryFound e).1, jTruthy v = true := by
  intro v hv
  simp only [entryFound] at hv
  split at hv
  · simp at hv
  · split at hv
    · -- aborted format-1 collection: members come from collectFmt1
      rename_i content hcontent habort
      revert hv
      split
      · intro hv; exact collectFmt1_truthy _ v hv
      · intro hv; simp at hv
    · rcases List.mem_append.mp hv with hv | hv
      · revert hv
        split
        · intro hv; exact collectFmt1_truthy _ v hv
        · intro hv; simp at hv
      · exact fmt2Found_truthy e v hv

theorem collectFound_truthy (ls : List LineContent) :
    ∀ acc, (∀ v ∈ acc, jTruthy v = true) →
      ∀ v ∈ collectFound ls acc, jTruthy v = true := by
  induction ls with
  | nil =>
    intro acc hacc v hv
    exact hacc v (by simpa [collectFound] using hv)
  | cons l rest ih =>
    intro acc hacc v hv
    cases l with
    | blank => exact ih acc hacc v (by simpa [collectFound] using hv)
    | bad => exact ih acc hacc v (by simpa [collectFound] using hv)
    | parsed e =>
      simp only [collectFound] at hv
      split at hv
      · rcases List.mem_append.mp hv with h | h
        · exact hacc v h
        · exact entryFound_truthy e v h
      · refine ih (acc ++ (entryFound e).1) ?_ v hv
        intro w hw
        rcases List.mem_append.mp hw with h | h
        · exact hacc w h
        · exact entryFound_truthy e w h

/-- C10: the detector never returns the empty string — only truthy
values (and the empty string is falsy) are ever appended to the
collection in either record shape, so the result is either the non-empty
sentinel `"unknown"` or a truthy (hence non-empty) collected value. -/
theorem detect_agent_name_never_empty (src : TranscriptSource) :
    detect_agent_name src ≠ Json.str "" ∧
    (detect_agent_name src = Json.str "unknown" ∨
       jTruthy (detect_agent_name src) = true) := by
  cases src with
  | noPath =>
    exact ⟨fun h => by injection h with h; exact absurd h (by decide), Or.inl rfl⟩
  | missing =>
    exact ⟨fun h => by injection h with h; exact absurd h (by decide), Or.inl rfl⟩
  | openFail =>
    exact ⟨fun h => by injection h with h; exact absurd h (by decide), Or.inl rfl⟩
  | lines ls =>
    cases hgl : (collectFound ls []).getLast? with
    | none =>
      have hd : detect_agent_name (.lines ls) = .str "unknown" := by
        simp [detect_agent_name, hgl]
      refine ⟨?_, Or.inl hd⟩
      rw [hd]
      intro h
      injection h with h
      exact absurd h (by decide)
    | some v =>
      have hmem : v ∈ collectFound ls [] := by
        have hv' : v ∈ (collectFound ls []).getLast? := Option.mem_def.mpr hgl
        rcases List.mem_getLast?_eq_getLast hv' with ⟨hne, heq⟩
        rw [heq]
        exact List.getLast_mem hne
      have htr : jTruthy v = true := collectFound_truthy ls [] (by simp) v hmem
      have hd : detect_agent_name (.lines ls) = v := by
        simp [detect_agent_name, hgl]
      refine ⟨?_, Or.inr (by rw [hd]; exact htr)⟩
      rw [hd]
      intro h
      subst h
      simp [jTruthy] at htr

/-! ## User-record tool-result extraction (C7) -/

theorem userResultBlocks_spec (blocks : List Json)
    (h : (userResultBlocks blocks).2 = false) :
    (userResultBlocks blocks).1 = claimBlockTexts blocks := by
  induction blocks with
  | nil => rfl
  | cons b rest ih =>
    cases b with
    | obj g =>
      by_cases ht : isStrVal (jLookup g "type") "text" = true
      · cases hjt : jLookup g "text" with
        | none =>
          rw [show userResultBlocks (Json.obj g :: rest) = userResultBlocks rest by
                simp [userResultBlocks, ht, hjt, jTruthy]] at h ⊢
          rw [ih h]
          simp [claimBlockTexts, ht, hjt]
        | some v =>
          cases v with
          | str s =>
            by_cases hs : s = ""
            · subst hs
              rw [show userResultBlocks (Json.obj g :: rest) = userResultBlocks rest by
                    simp [userResultBlocks, ht, hjt, jTruthy]] at h ⊢
              rw [ih h]
              simp [claimBlockTexts, ht, hjt]
            · have hred : userResultBlocks (Json.obj g :: rest) =
                  (String.mk (replBackslashN s.data) :: (userResultBlocks rest).1,
                   (userResultBlocks rest).2) := by
                simp [userResultBlocks, ht, hjt, jTruthy, hs]
              rw [hred] at h ⊢
              simp only at h
              rw [show claimBlockTexts (Json.obj g :: rest) =
                    String.mk (replBackslashN s.data) :: claimBlockTexts rest by
                  simp [claimBlockTexts, ht, hjt, hs]]
              simp only
              rw [ih h]
          | null =>
            rw [show userResultBlocks (Json.obj g :: rest) = userResultBlocks rest by
                  simp [userResultBlocks, ht, hjt, jTruthy]] at h ⊢
            rw [ih h]
            simp [claimBlockTexts, ht, hjt]
          | bool bb =>
            cases bb with
            | false =>
              rw [show userResultBlocks (Json.obj g :: rest) = userResultBlocks rest by
                    simp [userResultBlocks, ht, hjt, jTruthy]] at h ⊢
              rw [ih h]
              simp [claimBlockTexts, ht, hjt]
            | true =>
              exact absurd h (by simp [userResultBlocks, ht, hjt, jTruthy])
          | num n =>
            by_cases hn : n = 0
            · subst hn
              rw [show userResultBlocks (Json.obj g :: rest) = userResultBlocks rest by
                    simp [userResultBlocks, ht, hjt, jTruthy]] at h ⊢
              rw [ih h]
              simp [claimBlockTexts, ht, hjt]
            · exact absurd h (by simp [userResultBlocks, ht, hjt, jTruthy, hn])
          | arr xs =>
            cases xs with
            | nil =>
              rw [show userResultBlocks (Json.obj g :: rest) = userResultBlocks rest by
                    simp [userResultBlocks, ht, hjt, jTruthy]] at h ⊢
              rw [ih h]
              simp [claimBlockTexts, ht, hjt]
            | cons y ys =>
              exact absurd h (by simp [userResultBlocks, ht, hjt, jTruthy])
          | obj fs2 =>
            cases fs2 with
            | nil =>
              rw [show userResultBlocks (Json.obj g :: rest) = userResultBlocks rest by
                    simp [userResultBlocks, ht, hjt, jTruthy]] at h ⊢
              rw [ih h]
              simp [claimBlockTexts, ht, hjt]
            | cons p ps =>
              exact absurd h (by simp [userResultBlocks, ht, hjt, jTruthy])
      · rw [show userResultBlocks (Json.obj g :: rest) = userResultBlocks rest by
              simp [userResultBlocks, ht]] at h ⊢
        rw [ih h]
        simp [claimBlockTexts, ht]
    | null =>
      rw [show userResultBlocks (Json.null :: rest) = userResultBlocks rest from rfl] at h ⊢
      rw [ih h]; rfl
    | bool bb =>
      rw [show userResultBlocks (Json.bool bb :: rest) = userResultBlocks rest from rfl] at h ⊢
      rw [ih h]; rfl
    | num n =>
      rw [show userResultBlocks (Json.num n :: rest) = userResultBlocks rest from rfl] at h ⊢
      rw [ih h]; rfl
    | str s =>
      rw [show userResultBlocks (Json.str s :: rest) = userResultBlocks rest from rfl] at h ⊢
      rw [ih h]; rfl
    | arr xs =>
      rw [show userResultBlocks (Json.arr xs :: rest) = userResultBlocks rest from rfl] at h ⊢
      rw [ih h]; rfl

theorem userItemCollect_spec (item : Json)
    (h : (userItemCollect item).2 = false) :
    (userItemCollect item).1 = claimToolResultTexts item := by
  cases item with
  | obj fs =>
    by_cases ht : isStrVal (jLookup fs "type") "tool_result" = true
    · cases hc : (jLookup fs "content").getD (.str "") with
      | arr blocks =>
        have hred : userItemCollect (.obj fs) = userResultBlocks blocks := by
          simp [userItemCollect, ht, hc]
        rw [hred] at h ⊢
        rw [userResultBlocks_spec blocks h]
        simp [claimToolResultTexts, ht, hc]
      | null => simp [userItemCollect, claimToolResultTexts, ht, hc]
      | bool b => simp [userItemCollect, claimToolResultTexts, ht, hc]
      | num n => simp [userItemCollect, claimToolResultTexts, ht, hc]
      | str s => simp [userItemCollect, claimToolResultTexts, ht, hc]
      | obj g => simp [userItemCollect, claimToolResultTexts, ht, hc]
    · simp [userItemCollect, claimToolResultTexts, ht]
  | null => rfl
  | bool b => rfl
  | num n => rfl
  | str s => rfl
  | arr xs => rfl

theorem joinParts_strings (parts : List String) :
    joinParts (parts.map Json.str) = .ok (joinNewline parts) := by
  induction parts with
  | nil => rfl
  | cons s rest ih =>
    cases rest with
    | nil => rfl
    | cons b r =>
      have hstep : joinParts (Json.str s :: Json.str b :: r.map Json.str) =
          match joinParts (Json.str b :: r.map Json.str) with
          | .ok t => .ok (s ++ "\n" ++ t)
          | .error e => .error e := rfl
      rw [List.map_cons] at ih ⊢
      rw [List.map_cons, hstep, ih]
      rfl

/-- C7: a tool-result item inside a user record contributes exactly the
claimed fragments whenever its processing raises nothing — the text
blocks of a list-typed content with literal backslash-n unescaped to
newlines; a tool-result whose content is a plain string contributes
nothing; and string fragments are joined with newlines in order. -/
theorem user_tool_result_list_content :
    (∀ item : Json, (userItemCollect item).2 = false →
       (userItemCollect item).1 = claimToolResultTexts item) ∧
    (∀ fs : List (String × Json), ∀ s : String,
       (jLookup fs "content").getD (.str "") = .str s →
       userItemCollect (.obj fs) = ([], false)) ∧
    (∀ parts : List String, joinParts (parts.map Json.str) = .ok (joinNewline parts)) := by
  refine ⟨userItemCollect_spec, ?_, joinParts_strings⟩
  intro fs s hc
  by_cases ht : isStrVal (jLookup fs "type") "tool_result" = true
  · simp [userItemCollect, ht, hc]
  · simp [userItemCollect, ht]

/-! ## Markdown normalization: idempotence analysis (C9) -/

/-- C9 counterexample: the normalizer is not idempotent. On
`"*`*` *`*`"` the inline-code pass produces `"** **"`, the italic pass
then eats only the inner star pair leaving `"* *"` — a fixed point of
nothing: a second application sees a fresh italic pair and collapses it
to the empty string. -/
theorem clean_markdown_not_idempotent :
    _clean_markdown "*`*` *`*`" = "* *" ∧
    _clean_markdown (_clean_markdown "*`*` *`*`") = "" ∧
    _clean_markdown (_clean_markdown "*`*` *`*`") ≠ _clean_markdown "*`*` *`*`" := by
  exact ⟨rfl, rfl, by decide⟩

theorem subBoldAux_id (fuel : Nat) (l : List Char) (h : ∀ c ∈ l, c ≠ '*') :
    subBoldAux fuel l = l := by
  induction fuel generalizing l with
  | zero => rfl
  | succ fuel ih =>
    cases l with
    | nil => rfl
    | cons c rest =>
      have hc : c ≠ '*' := h c (List.mem_cons_self c rest)
      have hrest : ∀ d ∈ rest, d ≠ '*' := fun d hd => h d (List.mem_cons_of_mem c hd)
      simp only [subBoldAux]
      rw [if_neg (by simp [hc])]
      rw [ih rest hrest]

theorem subMarkerAux_id (mk : Char) (fuel : Nat) (l : List Char)
    (h : ∀ c ∈ l, c ≠ mk) : subMarkerAux mk fuel l = l := by
  induction fuel generalizing l with
  | zero => rfl
  | succ fuel ih =>
    cases l with
    | nil => rfl
    | cons c rest =>
      have hc : c ≠ mk := h c (List.mem_cons_self c rest)
      have hrest : ∀ d ∈ rest, d ≠ mk := fun d hd => h d (List.mem_cons_of_mem c hd)
      simp only [subMarkerAux]
      rw [if_neg hc]
      rw [ih rest hrest]

theorem cleanMarkdown_marker_free (l : List Char) (h : ∀ c ∈ l, c ≠ '*' ∧ c ≠ '`') :
    cleanMarkdown l = joinSpace (pySplit l) := by
  unfold cleanMarkdown subBold subMarker
  rw [subBoldAux_id _ l (fun c hc => (h c hc).1)]
  rw [subMarkerAux_id _ _ l (fun c hc => (h c hc).2)]
  rw [subMarkerAux_id _ _ l (fun c hc => (h c hc).1)]

theorem splitAux_chars (l : List Char) :
    ∀ acc tok, tok ∈ splitAux l acc → ∀ c ∈ tok, c ∈ l ∨ c ∈ acc := by
  induction l with
  | nil =>
    intro acc tok htok c hc
    simp only [splitAux] at htok
    split at htok
    · simp at htok
    · rcases List.mem_singleton.mp htok with rfl
      right
      exact List.mem_reverse.mp hc
  | cons a rest ih =>
    intro acc tok htok c hc
    simp only [splitAux] at htok
    split at htok
    · split at htok
      · rcases ih [] tok htok c hc with h | h
        · exact Or.inl (List.mem_cons_of_mem a h)
        · simp at h
      · rcases List.mem_cons.mp htok with rfl | htok
        · exact Or.inr (List.mem_reverse.mp hc)
        · rcases ih [] tok htok c hc with h | h
          · exact Or.inl (List.mem_cons_of_mem a h)
          · simp at h
    · rcases ih (a :: acc) tok htok c hc with h | h
      · exact Or.inl (List.mem_cons_of_mem a h)
      · rcases List.mem_cons.mp h with rfl | h
        · exact Or.inl (List.mem_cons_self c rest)
        · exact Or.inr h

theorem joinSpace_chars (ts : List (List Char)) :
    ∀ c ∈ joinSpace ts, (∃ tok ∈ ts, c ∈ tok) ∨ c = ' ' := by
  induction ts with
  | nil => simp [joinSpace]
  | cons t rest ih =>
    intro c hc
    cases rest with
    | nil =>
      left
      exact ⟨t, List.mem_cons_self t [], by simpa [joinSpace] using hc⟩
    | cons t2 r2 =>
      simp only [joinSpace] at hc
      rcases List.mem_append.mp hc with h | h
      · exact Or.inl ⟨t, List.mem_cons_self t _, h⟩
      · rcases List.mem_cons.mp h with rfl | h
        · exact Or.inr rfl
        · rcases ih c h with ⟨tok, htok, hctok⟩ | h
          · exact Or.inl ⟨tok, List.mem_cons_of_mem t htok, hctok⟩
          · exact Or.inr h

theorem splitAux_tokens (l : List Char) :
    ∀ acc, (∀ c ∈ acc, isPySpace c = false) →
      ∀ tok ∈ splitAux l acc, tok ≠ [] ∧ ∀ c ∈ tok, isPySpace c = false := by
  induction l with
  | nil =>
    intro acc hacc tok htok
    simp only [splitAux] at htok
    split at htok
    · simp at htok
    · rcases List.mem_singleton.mp htok with rfl
      rename_i hne
      refine ⟨by simpa using (by simpa [List.isEmpty_iff] using hne : acc ≠ []), ?_⟩
      intro c hc
      exact hacc c (List.mem_reverse.mp hc)
  | cons a rest ih =>
    intro acc hacc tok htok
    simp only [splitAux] at htok
    split at htok
    · split at htok
      · exact ih [] (by simp) tok htok
      · rcases List.mem_cons.mp htok with rfl | htok
        · rename_i hne
          refine ⟨by simpa using (by simpa [List.isEmpty_iff] using hne : acc ≠ []), ?_⟩
          intro c hc
          exact hacc c (List.mem_reverse.mp hc)
        · exact ih [] (by simp) tok htok
    · rename_i hsp
      refine ih (a :: acc) ?_ tok htok
      intro c hc
      rcases List.mem_cons.mp hc with rfl | hc
      · simpa using hsp
      · exact hacc c hc

theorem splitAux_nospace_append (t : List Char) (h : ∀ c ∈ t, isPySpace c = false) :
    ∀ l' acc, splitAux (t ++ l') acc = splitAux l' (t.reverse ++ acc) := by
  induction t with
  | nil => intro l' acc; simp
  | cons a t' ih =>
    intro l' acc
    have ha : isPySpace a = false := h a (List.mem_cons_self a t')
    have ht' : ∀ c ∈ t', isPySpace c = false := fun c hc => h c (List.mem_cons_of_mem a hc)
    show splitAux (a :: (t' ++ l')) acc = splitAux l' ((a :: t').reverse ++ acc)
    simp only [splitAux]
    rw [if_neg (by simp [ha])]
    rw [ih ht' l' (a :: acc)]
    simp [List.append_assoc]

theorem pySplit_joinSpace (ts : List (List Char))
    (h : ∀ tok ∈ ts, tok ≠ [] ∧ ∀ c ∈ tok, isPySpace c = false) :
    pySplit (joinSpace ts) = ts := by
  induction ts with
  | nil => rfl
  | cons t rest ih =>
    have ht := h t (List.mem_cons_self t rest)
    have hrest : ∀ tok ∈ rest, tok ≠ [] ∧ ∀ c ∈ tok, isPySpace c = false :=
      fun tok htok => h tok (List.mem_cons_of_mem t htok)
    cases rest with
    | nil =>
      show splitAux (joinSpace [t]) [] = [t]
      have : joinSpace [t] = t ++ [] := by simp [joinSpace]
      rw [this, splitAux_nospace_append t ht.2 [] []]
      simp only [splitAux]
      rw [if_neg (by simpa [List.isEmpty_iff] using ht.1)]
      simp
    | cons t2 r2 =>
      show splitAux (joinSpace (t :: t2 :: r2)) [] = t :: t2 :: r2
      have hjs : joinSpace (t :: t2 :: r2) = t ++ ' ' :: joinSpace (t2 :: r2) := rfl
      rw [hjs, splitAux_nospace_append t ht.2 (' ' :: joinSpace (t2 :: r2)) []]
      simp only [splitAux]
      rw [if_pos (by decide : isPySpace ' ' = true)]
      rw [if_neg (by simpa [List.isEmpty_iff] using ht.1)]
      rw [List.append_nil, List.reverse_reverse]
      exact congrArg (t :: ·) (ih hrest)

theorem cleanMarkdown_idem_marker_free (l : List Char)
    (h : ∀ c ∈ l, c ≠ '*' ∧ c ≠ '`') :
    cleanMarkdown (cleanMarkdown l) = cleanMarkdown l := by
  have h1 : cleanMarkdown l = joinSpace (pySplit l) := cleanMarkdown_marker_free l h
  have hout : ∀ c ∈ cleanMarkdown l, c ≠ '*' ∧ c ≠ '`' := by
    intro c hc
    rw [h1] at hc
    rcases joinSpace_chars _ c hc with ⟨tok, htok, hctok⟩ | rfl
    · exact h c (by
        rcases splitAux_chars l [] tok htok c hctok with hmem | hmem
        · exact hmem
        · simp at hmem)
    · exact ⟨by decide, by decide⟩
  rw [cleanMarkdown_marker_free _ hout, h1]
  exact congrArg joinSpace (pySplit_joinSpace (pySplit l) (splitAux_tokens l [] (by simp)))

/-- C9 amended: the normalizer is not idempotent in general (see the
counterexample); it is idempotent on every input containing no `*` and no
backtick character — there it reduces to whitespace collapsing, which is
a projection. -/
theorem clean_markdown_idempotent_marker_free (s : String)
    (h : ∀ c ∈ s.data, c ≠ '*' ∧ c ≠ '`') :
    _clean_markdown (_clean_markdown s) = _clean_markdown s := by
  show String.mk (cleanMarkdown (String.mk (cleanMarkdown s.data)).data) =
    String.mk (cleanMarkdown s.data)
  exact congrArg String.mk (cleanMarkdown_idem_marker_free s.data h)

/-- Witness for the amended C9 theorem at a concrete marker-free input. -/
theorem clean_markdown_idempotent_witness :
    _clean_markdown (_clean_markdown "  keep  calm and\tparse on ") =
      _clean_markdown "  keep  calm and\tparse on " :=
  clean_markdown_idempotent_marker_free "  keep  calm and\tparse on " (by decide)

/-! ## The orchestrator's exit status (C1) -/

theorem zeroExit_bind {α β : Type} (x : PyResult α) (f : α → PyResult β)
    (hx : x.zeroExit) (hf : ∀ a, (f a).zeroExit) : (PyResult.bind x f).zeroExit := by
  cases x with
  | ok a => exact hf a
  | exn => trivial
  | exit c => exact hx

theorem zeroExit_liftExc {α : Type} (e : Except Unit α) : (liftExc e).zeroExit := by
  cases e <;> trivial

theorem zeroExit_stepFault (env : MainEnv) (k : Nat) : (stepFault env k).zeroExit := by
  unfold stepFault
  split <;> trivial

theorem zeroExit_projectOf (cwd : Json) : (projectOf cwd).zeroExit := by
  unfold projectOf
  split
  · cases cwd <;> trivial
  · trivial

theorem zeroExit_agentAvailable (env : MainEnv) (v : Json) :
    (agentAvailable env v).zeroExit := by
  unfold agentAvailable
  split
  · cases v <;> trivial
  · trivial

theorem zeroExit_parentDetect (env : MainEnv) (v : Json) :
    (parentDetect env v).zeroExit := by
  unfold parentDetect
  split
  · trivial
  · split <;> trivial

theorem runMainBody_zeroExit (env : MainEnv) : (runMainBody env).zeroExit := by
  unfold runMainBody
  refine zeroExit_bind _ _ (zeroExit_stepFault env 0) fun _ => ?_
  refine zeroExit_bind _ _ ?_ fun data => ?_
  · cases env.stdinRead with
    | error e => trivial
    | ok o => cases o <;> trivial
  refine zeroExit_bind _ _ (zeroExit_liftExc _) fun _ => ?_
  refine zeroExit_bind _ _ (zeroExit_liftExc _) fun agentPath => ?_
  refine zeroExit_bind _ _ (zeroExit_liftExc _) fun parentPath => ?_
  refine zeroExit_bind _ _ (zeroExit_liftExc _) fun cwd => ?_
  refine zeroExit_bind _ _ (zeroExit_projectOf _) fun _ => ?_
  refine zeroExit_bind _ _ (zeroExit_stepFault env 1) fun _ => ?_
  split
  · rfl
  refine zeroExit_bind _ _ (zeroExit_stepFault env 2) fun _ => ?_
  refine zeroExit_bind _ _ (zeroExit_agentAvailable _ _) fun avail => ?_
  split
  · rfl
  refine zeroExit_bind _ _ (zeroExit_stepFault env 3) fun _ => ?_
  refine zeroExit_bind _ _ (zeroExit_parentDetect _ _) fun _ => ?_
  refine zeroExit_bind _ _ (zeroExit_stepFault env 4) fun _ => ?_
  refine zeroExit_bind _ _ ?_ fun learnings => ?_
  · cases extract_learnings env.agentTranscript <;> trivial
  split
  · rfl
  refine zeroExit_bind _ _ (zeroExit_stepFault env 5) fun _ => ?_
  trivial

theorem mainExitCode_zero_of_logging_ok (env : MainEnv)
    (h : env.loggingFault = false) : mainExitCode env = 0 := by
  unfold mainExitCode
  rw [h]
  have hz := runMainBody_zeroExit env
  simp only [Bool.false_eq_true, if_false]
  cases hr : runMainBody env with
  | exit c => rw [hr] at hz; exact hz
  | exn => rfl
  | ok a => rfl

/-- C1: inside `main`'s `try` boundary the process always exits 0 — on
malformed or empty stdin, an unreachable capture service, a missing
transcript, empty extraction, failed submissions and an unexpected
exception at any step. But the claim is not true of every invocation:
`setup_logging()` runs at line 377, before the `try` at line 379, so an
exception raised there (log directory creation or log-file opening
failing) escapes `main` and the interpreter exits with status 1,
contradicting `main`'s own docstring ("always exits 0"). -/
theorem main_exit_zero_except_logging_setup :
    mainExitCode envLoggingFails = 1 ∧
    (∀ env : MainEnv, env.loggingFault = false → mainExitCode env = 0) :=
  ⟨rfl, mainExitCode_zero_of_logging_ok⟩
